import Mathlib

/-!
Shallow embedding of the risk-and-oracle core of the repository:
`packages/contracts/hyperevm/src/OracleAdapter.sol` and
`packages/contracts/hyperevm/src/RiskManager.sol` (Solidity 0.8, checked
arithmetic).  Machine integers are modelled as `Nat`/`Int`; Solidity 0.8
checked arithmetic that can revert (overflow, underflow, division by zero)
is modelled by `Option`/`Except` failures, and the silent wrap of explicit
casts (`int64(..)`, `uint64(..)`, `int256(..)`) by explicit `% 2^w` wraps.
Signed Solidity division truncates toward zero, which is `Int.tdiv`.
Access control (`msg.sender` checks of the `onlyKeeper` / `onlyAdmin`
modifiers) is abstracted: the claims quantify over authorized calls.  The
`liquidators` role mapping of RiskManager is kept explicitly because
`liquidatePosition` is guarded by it.
-/

/-- Two-complement wrap of an explicit `int64(..)` cast. -/
def i64wrap (x : Int) : Int := (x + 2 ^ 63) % 2 ^ 64 - 2 ^ 63

/-- Wrap of an explicit `uint64(..)` cast. -/
def u64wrap (x : Int) : Nat := (x % (2 : Int) ^ 64).toNat

/-- Range test for checked `int64` arithmetic. -/
def inI64 (x : Int) : Bool := decide (-(2 ^ 63) ≤ x) && decide (x < 2 ^ 63)

/-- Two-complement wrap of an explicit `int256(..)` cast. -/
def i256wrap (x : Int) : Int := (x + 2 ^ 255) % 2 ^ 256 - 2 ^ 255

/-- Range test for checked `int256` arithmetic. -/
def inI256 (x : Int) : Bool := decide (-(2 ^ 255) ≤ x) && decide (x < 2 ^ 255)

/-- Checked `int256` operation: reverts (`none`) when the result overflows. -/
def chk256 (x : Int) : Option Int := if inI256 x then some x else none

/-- Checked `uint256` operation: reverts (`none`) when the result overflows. -/
def chkU256 (x : Nat) : Option Nat := if x < 2 ^ 256 then some x else none

/-- Checked `int256` division: truncates toward zero, reverts on division by
zero and on `int256.min / -1`. -/
def sdiv256 (a b : Int) : Option Int :=
  if b = 0 then none else chk256 (Int.tdiv a b)

/-- Decidable equality for `Except`, used to evaluate results on concrete
inputs. -/
instance {e a : Type} [DecidableEq e] [DecidableEq a] : DecidableEq (Except e a) := fun x y =>
  match x, y with
  | .ok u, .ok v =>
    if h : u = v then .isTrue (by rw [h]) else .isFalse (by simp [h])
  | .error u, .error v =>
    if h : u = v then .isTrue (by rw [h]) else .isFalse (by simp [h])
  | .ok _, .error _ => .isFalse (by simp)
  | .error _, .ok _ => .isFalse (by simp)

/-- `type(uint256).max`. -/
def U256MAX : Nat := 2 ^ 256 - 1

/-- OracleAdapter: `struct PricePoint { int64 price; uint64 conf; uint256 timestamp; }`. -/
structure PricePoint where
  price : Int
  conf : Nat
  timestamp : Nat
deriving DecidableEq

/-- A Pyth price as returned by `getPriceUnsafe`:
`int64 price, uint64 conf, int32 expo, uint publishTime`. -/
structure PythPrice where
  price : Int
  conf : Nat
  expo : Int
  publishTime : Nat
deriving DecidableEq

/-- Typed revert reasons of OracleAdapter (the `require` messages), plus
`ArithPanic` for Solidity 0.8 checked-arithmetic panics. -/
inductive OracleErr where
  | CircuitBreakerActive
  | InsufficientFee
  | StalePrice
  | AlreadyActive
  | NotActive
  | CoolDownNotElapsed
  | InvalidDuration
  | NoHistory
  | InsufficientData
  | InvalidPrices
  | ArithPanic
deriving DecidableEq

/-- Events emitted by OracleAdapter. -/
inductive OracleEvent where
  | PriceUpdated (price : Int) (confidence : Nat) (timestamp : Nat)
  | CircuitBreakerTriggered (timestamp : Nat)
  | CircuitBreakerReset (timestamp : Nat)
  | PriceDeviationDetected (spotPrice twapPrice : Int) (deviation : Nat)
deriving DecidableEq

/-- OracleAdapter constants `MAX_PRICE_STALENESS`, `MAX_DEVIATION_PERCENT`,
`TWAP_WINDOW`, `MAX_HISTORY_LENGTH`. -/
def MAX_PRICE_STALENESS : Nat := 10
def MAX_DEVIATION_PERCENT : Nat := 1000
def TWAP_WINDOW : Nat := 300
def MAX_HISTORY_LENGTH : Nat := 60

/-- Mutable state of OracleAdapter.  `marketPaused` mirrors the effect of the
`riskManager.pauseMarket()` / `resumeMarket()` calls the adapter issues. -/
structure OracleState where
  circuitBreakerActive : Bool
  lastCircuitBreakerTimestamp : Nat
  priceHistory : List PricePoint
  marketPaused : Bool
deriving DecidableEq

/-- The state right after the constructor: empty history, breaker inactive. -/
def initOracleState : OracleState :=
  { circuitBreakerActive := false
    lastCircuitBreakerTimestamp := 0
    priceHistory := []
    marketPaused := false }

/-- `_normalizePrice(int64 price, int32 expo)`: rescale to 8 decimals.
`10 ** uint32(expoDiff)` is checked `uint256` exponentiation (panics for
exponents with at least 78 digits of result), the `int64(..)` cast of it
wraps, the division/multiplication is checked `int64` arithmetic. -/
def normalizePrice (price : Int) (expo : Int) : Except OracleErr Int :=
  let expoDiff : Int := -8 - expo
  if 0 < expoDiff then
    let k : Nat := expoDiff.toNat
    if 78 ≤ k then .error .ArithPanic
    else
      let d : Int := i64wrap ((10 : Int) ^ k)
      if d = 0 then .error .ArithPanic
      else
        let q : Int := Int.tdiv price d
        if inI64 q then .ok q else .error .ArithPanic
  else if expoDiff < 0 then
    let k : Nat := (-expoDiff).toNat
    if 78 ≤ k then .error .ArithPanic
    else
      let m : Int := i64wrap ((10 : Int) ^ k)
      let r : Int := price * m
      if inI64 r then .ok r else .error .ArithPanic
  else .ok price

/-- `validatePriceFreshness(uint256 publishTime)`:
`block.timestamp - publishTime <= MAX_PRICE_STALENESS`, where the `uint256`
subtraction panics when `publishTime > block.timestamp`. -/
def validatePriceFreshness (blockTimestamp publishTime : Nat) : Except OracleErr Bool :=
  if blockTimestamp < publishTime then .error .ArithPanic
  else .ok (decide (blockTimestamp - publishTime ≤ MAX_PRICE_STALENESS))

/-- First trim loop of `_validateAndStorePrice`:
`for (i = 0; i < length - MAX_HISTORY_LENGTH; i++) h[i] = h[i+1];`.
The length does not change inside this loop, and on the executed domain
(`length > MAX_HISTORY_LENGTH`) the index `i + 1` is always in bounds, so the
`getD` default is never read. -/
def shiftLoop (h : List PricePoint) : List PricePoint :=
  (List.range (h.length - MAX_HISTORY_LENGTH)).foldl
    (fun acc i => acc.set i (acc.getD (i + 1) ⟨0, 0, 0⟩)) h

/-- Second trim loop of `_validateAndStorePrice`:
`for (i = 0; i < length - MAX_HISTORY_LENGTH; i++) h.pop();`, where the
length is re-evaluated each iteration.  The fuel is the entry length: the
loop pops at most one element per iteration and always stops within that
many steps, so the structural recursion computes the same result. -/
def popLoopFuel : Nat → List PricePoint → Nat → List PricePoint
  | 0, h, _ => h
  | fuel + 1, h, i =>
      if i < h.length - MAX_HISTORY_LENGTH then popLoopFuel fuel h.dropLast (i + 1) else h

def popLoop (h : List PricePoint) : List PricePoint := popLoopFuel h.length h 0

/-- The history-trimming step of `_validateAndStorePrice`
(`if (priceHistory.length > MAX_HISTORY_LENGTH) { ... }`). -/
def trimHistory (h : List PricePoint) : List PricePoint :=
  if MAX_HISTORY_LENGTH < h.length then popLoop (shiftLoop h) else h

/-- Backward scan of `calculateTWAP`: walk the history from the newest entry,
stop at the first point older than the cutoff, summing
`uint256(uint64(point.price)) * 1` and a weight of `1` per point.
The argument is the reversed history. -/
def twapScan : List PricePoint → Nat → Nat × Nat → Nat × Nat
  | [], _, acc => acc
  | point :: rest, cutoffTime, (weightedSum, totalWeight) =>
      if point.timestamp < cutoffTime then (weightedSum, totalWeight)
      else twapScan rest cutoffTime (weightedSum + u64wrap point.price * 1, totalWeight + 1)

/-- `calculateTWAP(uint256 duration)` evaluated against a given history and
`block.timestamp`.  The `uint256` sums cannot overflow on any state the
contract can reach (at most 61 summands below `2^64`), and the final
`int64(..)` cast of the quotient wraps. -/
def calculateTWAP (hist : List PricePoint) (blockTimestamp duration : Nat) :
    Except OracleErr Int :=
  if ¬(0 < duration ∧ duration ≤ TWAP_WINDOW) then .error .InvalidDuration
  else if hist.length = 0 then .error .NoHistory
  else if blockTimestamp < duration then .error .ArithPanic
  else
    let cutoffTime := blockTimestamp - duration
    let scanned := twapScan hist.reverse cutoffTime (0, 0)
    if scanned.2 = 0 then .error .InsufficientData
    else .ok (i64wrap ((scanned.1 / scanned.2 : Nat) : Int))

/-- `checkPriceDeviation(int64 spotPrice, int64 twapPrice)`.  Both inputs are
required positive, so the `int64` subtraction of the two cannot overflow. -/
def checkPriceDeviation (spotPrice twapPrice : Int) : Except OracleErr (Bool × Nat) :=
  if ¬(0 < spotPrice ∧ 0 < twapPrice) then .error .InvalidPrices
  else
    let deviation : Nat :=
      if twapPrice < spotPrice then (spotPrice - twapPrice).toNat
      else (twapPrice - spotPrice).toNat
    let deviationBps := deviation * 10000 / u64wrap twapPrice
    .ok (decide (MAX_DEVIATION_PERCENT < deviationBps), deviationBps)

/-- The deviation block of `_validateAndStorePrice`: runs only once the
(post-trim) history has at least 5 entries; compares the just-normalized
price against `calculateTWAP(60)`; emits a deviation event beyond
`MAX_DEVIATION_PERCENT` and additionally activates the circuit breaker and
pauses the market beyond `MAX_DEVIATION_PERCENT * 2`. -/
def deviationCheck (st : OracleState) (blockTimestamp : Nat) (normalizedPrice : Int) :
    Except OracleErr (OracleState × List OracleEvent) :=
  if 5 ≤ st.priceHistory.length then
    match calculateTWAP st.priceHistory blockTimestamp 60 with
    | .error e => .error e
    | .ok twap =>
      match checkPriceDeviation normalizedPrice twap with
      | .error e => .error e
      | .ok (isDeviated, deviationBps) =>
        if isDeviated then
          if MAX_DEVIATION_PERCENT * 2 < deviationBps then
            .ok ({ st with circuitBreakerActive := true
                           lastCircuitBreakerTimestamp := blockTimestamp
                           marketPaused := true },
                 [.PriceDeviationDetected normalizedPrice twap deviationBps,
                  .CircuitBreakerTriggered blockTimestamp])
          else
            .ok (st, [.PriceDeviationDetected normalizedPrice twap deviationBps])
        else .ok (st, [])
  else .ok (st, [])

/-- The normalize-store-check body of `_validateAndStorePrice` (everything
after the freshness `require`): normalization of price and confidence, push
of the new point, trim, deviation check, final `PriceUpdated` event.
`normalizedConf = uint64(_normalizePrice(int64(conf), expo))` is written
inline as `u64wrap conf0`. -/
def storePriceBody (st : OracleState) (blockTimestamp : Nat) (pythPrice : PythPrice) :
    Except OracleErr (OracleState × List OracleEvent) :=
  match normalizePrice pythPrice.price pythPrice.expo with
  | .error e => .error e
  | .ok normalizedPrice =>
    match normalizePrice (i64wrap pythPrice.conf) pythPrice.expo with
    | .error e => .error e
    | .ok conf0 =>
      match deviationCheck
          { st with priceHistory :=
              trimHistory (st.priceHistory ++
                [⟨normalizedPrice, u64wrap conf0, pythPrice.publishTime⟩]) }
          blockTimestamp normalizedPrice with
      | .error e => .error e
      | .ok (st2, evs) =>
        .ok (st2, evs ++
          [.PriceUpdated normalizedPrice (u64wrap conf0) pythPrice.publishTime])

/-- `_validateAndStorePrice(PythStructs.Price memory pythPrice)`:
`require(validatePriceFreshness(pythPrice.publishTime), "Price too stale")`
written out (the `uint256` subtraction inside the freshness check panics
when the publish time exceeds the block time), then the store body. -/
def validateAndStorePrice (st : OracleState) (blockTimestamp : Nat) (pythPrice : PythPrice) :
    Except OracleErr (OracleState × List OracleEvent) :=
  if blockTimestamp < pythPrice.publishTime then .error .ArithPanic
  else if MAX_PRICE_STALENESS < blockTimestamp - pythPrice.publishTime then .error .StalePrice
  else storePriceBody st blockTimestamp pythPrice

/-- `updatePriceAndValidate(bytes[] priceUpdateData)`.  `fee` stands for
`pythOracle.getUpdateFee(priceUpdateData)`, `msgValue` for `msg.value`, and
`pythPrice` for the price `getPriceUnsafe` returns after the feed update. -/
def updatePriceAndValidate (st : OracleState) (blockTimestamp msgValue fee : Nat)
    (pythPrice : PythPrice) : Except OracleErr (OracleState × List OracleEvent) :=
  if st.circuitBreakerActive then .error .CircuitBreakerActive
  else if msgValue < fee then .error .InsufficientFee
  else validateAndStorePrice st blockTimestamp pythPrice

/-- `triggerCircuitBreaker(string reason)` (keeper-only). -/
def triggerCircuitBreaker (st : OracleState) (blockTimestamp : Nat) :
    Except OracleErr (OracleState × List OracleEvent) :=
  if st.circuitBreakerActive then .error .AlreadyActive
  else
    .ok ({ st with circuitBreakerActive := true
                   lastCircuitBreakerTimestamp := blockTimestamp
                   marketPaused := true },
         [.CircuitBreakerTriggered blockTimestamp])

/-- `resetCircuitBreaker()` (admin-only): requires the breaker active and the
5-minute (300 s) cool-down elapsed. -/
def resetCircuitBreaker (st : OracleState) (blockTimestamp : Nat) :
    Except OracleErr (OracleState × List OracleEvent) :=
  if ¬st.circuitBreakerActive then .error .NotActive
  else if blockTimestamp < st.lastCircuitBreakerTimestamp + 300 then .error .CoolDownNotElapsed
  else
    .ok ({ st with circuitBreakerActive := false, marketPaused := false },
         [.CircuitBreakerReset blockTimestamp])

/-- One externally-triggered OracleAdapter transaction. -/
inductive OracleStep where
  | ingest (blockTimestamp msgValue fee : Nat) (pythPrice : PythPrice)
  | trigger (blockTimestamp : Nat)
  | reset (blockTimestamp : Nat)
deriving DecidableEq

/-- Result of executing one transaction against a state. -/
def stepResult (st : OracleState) : OracleStep → Except OracleErr (OracleState × List OracleEvent)
  | .ingest blockTimestamp msgValue fee pythPrice =>
      updatePriceAndValidate st blockTimestamp msgValue fee pythPrice
  | .trigger blockTimestamp => triggerCircuitBreaker st blockTimestamp
  | .reset blockTimestamp => resetCircuitBreaker st blockTimestamp

/-- A reverted transaction leaves the state unchanged. -/
def execStep (st : OracleState) (s : OracleStep) : OracleState :=
  match stepResult st s with
  | .ok (st2, _) => st2
  | .error _ => st

def runSteps (st : OracleState) (steps : List OracleStep) : OracleState :=
  steps.foldl execStep st

/-- Whether a step is a `resetCircuitBreaker` call that succeeds in the given
state. -/
def resetSucceeds (st : OracleState) : OracleStep → Bool
  | .reset blockTimestamp =>
      st.circuitBreakerActive && decide (st.lastCircuitBreakerTimestamp + 300 ≤ blockTimestamp)
  | _ => false

/-- No transaction of the list is a successful `resetCircuitBreaker`. -/
def noSuccessfulReset : OracleState → List OracleStep → Bool
  | _, [] => true
  | st, s :: rest => !resetSucceeds st s && noSuccessfulReset (execStep st s) rest


/-- RiskManager: `struct LeverageTier`. -/
structure LeverageTier where
  maxPositionSize : Nat
  maxLeverage : Nat
  initialMargin : Nat
  maintenanceMargin : Nat
deriving DecidableEq

/-- RiskManager: `struct MarketConfig`. -/
structure MarketConfig where
  isPaused : Bool
  isEarningsMode : Bool
  maxPositionSize : Nat
  minOrderSize : Nat
  makerFee : Nat
  takerFee : Nat
  fundingRate : Nat
deriving DecidableEq

/-- RiskManager: `struct Position`.  The `trader` field of the source struct
is never written anywhere in the contract and is dropped; positions are keyed
by the trader address in the `positions` mapping. -/
structure Position where
  size : Int
  avgEntryPrice : Nat
  margin : Nat
  lastUpdateTime : Nat
  fundingPaid : Nat
deriving DecidableEq

/-- RiskManager constants. -/
def BASIS_POINTS : Nat := 10000
def PRICE_DECIMALS : Nat := 100000000
def EARNINGS_MODE_LEVERAGE_REDUCTION : Nat := 5000
def MAX_FUNDING_RATE : Nat := 100

/-- Typed revert reasons of RiskManager, plus `ArithPanic` for checked
Solidity 0.8 arithmetic panics. -/
inductive RiskErr where
  | OnlyLiquidator
  | MarketPaused
  | NoPosition
  | PositionHealthy
  | TooSoon
  | ArithPanic
deriving DecidableEq

/-- The default value of `mapping(address => Position)`. -/
def zeroPosition : Position := ⟨0, 0, 0, 0, 0⟩

/-- Addresses are modelled as naturals. -/
abbrev Addr := Nat

/-- Read of `positions[account]`: mapping semantics, default zero struct. -/
def lookupPosition (positions : List (Addr × Position)) (account : Addr) : Position :=
  match positions.find? (fun e => e.1 == account) with
  | some e => e.2
  | none => zeroPosition

/-- Mutable state of RiskManager.  `writerFundingRate` records the last rate
forwarded to the CoreWriter (the Administrative Writer). -/
structure RiskState where
  marketConfig : MarketConfig
  leverageTiers : List LeverageTier
  positions : List (Addr × Position)
  liquidators : List Addr
  totalOpenInterest : Int
  totalLongOpenInterest : Int
  totalShortOpenInterest : Int
  lastFundingUpdate : Nat
  writerFundingRate : Option Nat
deriving DecidableEq

/-- `_initializeDefaultTiers()`: the four tiers it pushes. -/
def defaultTiers : List LeverageTier :=
  [⟨10000 * PRICE_DECIMALS, 2000, 500, 250⟩,
   ⟨50000 * PRICE_DECIMALS, 1500, 667, 333⟩,
   ⟨100000 * PRICE_DECIMALS, 1000, 1000, 500⟩,
   ⟨500000 * PRICE_DECIMALS, 500, 2000, 1000⟩]

/-- The state right after the RiskManager constructor. -/
def initRiskState : RiskState :=
  { marketConfig :=
      { isPaused := false
        isEarningsMode := false
        maxPositionSize := 1000000 * PRICE_DECIMALS
        minOrderSize := 10 * PRICE_DECIMALS
        makerFee := 0
        takerFee := 50
        fundingRate := 10 }
    leverageTiers := defaultTiers
    positions := []
    liquidators := []
    totalOpenInterest := 0
    totalLongOpenInterest := 0
    totalShortOpenInterest := 0
    lastFundingUpdate := 0
    writerFundingRate := none }

/-- `_calculatePnl(Position memory pos, uint256 markPrice)`.  The inner
subtractions `markPrice - pos.avgEntryPrice` (long branch) and
`pos.avgEntryPrice - markPrice` (short branch) are checked `uint256`
subtractions: they panic (`none`) whenever the subtrahend exceeds the
minuend.  The `int256(..)` casts wrap, the multiplication is checked
`int256` arithmetic, and the division is checked signed division. -/
def calculatePnl (pos : Position) (markPrice : Nat) : Option Int :=
  if 0 < pos.size then
    if markPrice < pos.avgEntryPrice then none
    else
      match chk256 (pos.size * i256wrap ((markPrice - pos.avgEntryPrice : Nat) : Int)) with
      | none => none
      | some prod => sdiv256 prod (i256wrap (pos.avgEntryPrice : Int))
  else
    match chk256 (-pos.size) with
    | none => none
    | some negSize =>
      if pos.avgEntryPrice < markPrice then none
      else
        match chk256 (negSize * i256wrap ((pos.avgEntryPrice - markPrice : Nat) : Int)) with
        | none => none
        | some prod => sdiv256 prod (i256wrap (pos.avgEntryPrice : Int))

/-- `_getLeverageTier(uint256 positionSize)`: first tier whose
`maxPositionSize` is not exceeded, otherwise the last tier; reading
`leverageTiers[length - 1]` of an empty array panics (`none`). -/
def getLeverageTier (tiers : List LeverageTier) (positionSize : Nat) : Option LeverageTier :=
  match tiers.find? (fun t => decide (positionSize ≤ t.maxPositionSize)) with
  | some t => some t
  | none => tiers.getLast?

/-- `_abs(int256 value)`: panics on `int256.min` (checked negation). -/
def absInt256 (value : Int) : Option Nat :=
  if value = -(2 ^ 255) then none else some value.natAbs

/-- `checkPositionHealth(address account)` with the oracle read
`uint256(uint64(price))` supplied as `markPrice`.  Returns
`(isHealthy, healthFactor)`, or `none` where the Solidity call reverts. -/
def checkPositionHealth (positions : List (Addr × Position)) (tiers : List LeverageTier)
    (account : Addr) (markPrice : Nat) : Option (Bool × Nat) :=
  let pos := lookupPosition positions account
  if pos.size = 0 then some (true, U256MAX)
  else
    match calculatePnl pos markPrice with
    | none => none
    | some unrealizedPnl =>
      match (if 0 ≤ unrealizedPnl then chkU256 (pos.margin + unrealizedPnl.toNat)
             else some (if (-unrealizedPnl).toNat < pos.margin
                        then pos.margin - (-unrealizedPnl).toNat else 0)) with
      | none => none
      | some equity =>
        match absInt256 pos.size with
        | none => none
        | some absSize =>
          match chkU256 (absSize * markPrice) with
          | none => none
          | some notionalProd =>
            let notionalValue := notionalProd / PRICE_DECIMALS
            match getLeverageTier tiers notionalValue with
            | none => none
            | some tier =>
              match chkU256 (notionalValue * tier.maintenanceMargin) with
              | none => none
              | some mmProd =>
                let maintenanceRequired := mmProd / BASIS_POINTS
                match (if 0 < maintenanceRequired then chkU256 (equity * BASIS_POINTS)
                       else some 0) with
                | none => none
                | some hfProd =>
                  some (decide (maintenanceRequired ≤ equity),
                        if 0 < maintenanceRequired then hfProd / maintenanceRequired
                        else U256MAX)

/-- `_updateOpenInterest(int256 sizeDelta)` with checked `int256` adds. -/
def updateOpenInterest (st : RiskState) (sizeDelta : Int) : Option RiskState :=
  match chk256 (st.totalOpenInterest + sizeDelta) with
  | none => none
  | some newTotal =>
    if 0 < sizeDelta then
      match chk256 (st.totalLongOpenInterest + sizeDelta) with
      | none => none
      | some newLong =>
        some { st with totalOpenInterest := newTotal, totalLongOpenInterest := newLong }
    else
      match chk256 (-sizeDelta) with
      | none => none
      | some negDelta =>
        match chk256 (st.totalShortOpenInterest + negDelta) with
        | none => none
        | some newShort =>
          some { st with totalOpenInterest := newTotal, totalShortOpenInterest := newShort }

/-- `liquidatePosition(address trader)` called by `caller` with the oracle
read supplied as `markPrice`.  Returns the new state, the amount transferred
to the liquidator, and the final PnL the event reports.  The source binds
`Position storage pos` and reads `pos.margin` for the reward only after
`delete positions[trader]`, so that read sees the cleared slot. -/
def liquidatePosition (st : RiskState) (caller trader : Addr) (markPrice : Nat) :
    Except RiskErr (RiskState × Nat × Int) :=
  if st.liquidators.contains caller then
    if st.marketConfig.isPaused then .error .MarketPaused
    else
    let pos := lookupPosition st.positions trader
    if pos.size = 0 then .error .NoPosition
    else
      match checkPositionHealth st.positions st.leverageTiers trader markPrice with
      | none => .error .ArithPanic
      | some (isHealthy, _) =>
        if isHealthy then .error .PositionHealthy
        else
          match calculatePnl pos markPrice with
          | none => .error .ArithPanic
          | some pnl =>
            match chk256 (-pos.size) with
            | none => .error .ArithPanic
            | some sizeDelta =>
              match updateOpenInterest st sizeDelta with
              | none => .error .ArithPanic
              | some st1 =>
                let positions2 :=
                  st.positions.map (fun e => if e.1 == trader then (e.1, zeroPosition) else e)
                let liquidatorReward := (lookupPosition positions2 trader).margin / 10
                .ok ({ st1 with positions := positions2 }, liquidatorReward, pnl)
  else .error .OnlyLiquidator

/-- `updateFundingRate()` at `block.timestamp = blockTimestamp`.  On success
the computed rate is stored in `marketConfig.fundingRate` and forwarded to
the CoreWriter (`writerFundingRate`). -/
def updateFundingRate (st : RiskState) (blockTimestamp : Nat) : Except RiskErr RiskState :=
  if blockTimestamp < st.lastFundingUpdate + 3600 then .error .TooSoon
  else
    match chk256 (st.totalLongOpenInterest - st.totalShortOpenInterest) with
    | none => .error .ArithPanic
    | some skew =>
      match chk256 (st.totalLongOpenInterest + st.totalShortOpenInterest) with
      | none => .error .ArithPanic
      | some totalOI =>
        if totalOI = 0 then
          .ok { st with marketConfig := { st.marketConfig with fundingRate := 10 }
                        lastFundingUpdate := blockTimestamp
                        writerFundingRate := some 10 }
        else
          match chk256 (skew * (BASIS_POINTS : Int)) with
          | none => .error .ArithPanic
          | some skewScaled =>
            match sdiv256 skewScaled totalOI with
            | none => .error .ArithPanic
            | some skewQuot =>
              match absInt256 skewQuot with
              | none => .error .ArithPanic
              | some absQuot =>
                let newRate := absQuot / 100
                let capped := if MAX_FUNDING_RATE < newRate then MAX_FUNDING_RATE else newRate
                .ok { st with marketConfig := { st.marketConfig with fundingRate := capped }
                              lastFundingUpdate := blockTimestamp
                              writerFundingRate := some capped }

/-- `_applyEarningsModeLeverage()`: halves each tier's `maxLeverage` and
doubles its `initialMargin` (checked `uint256` multiplications). -/
def applyEarningsModeLeverage (tiers : List LeverageTier) : Option (List LeverageTier) :=
  tiers.mapM (fun t =>
    match chkU256 (t.maxLeverage * EARNINGS_MODE_LEVERAGE_REDUCTION) with
    | none => none
    | some a =>
      match chkU256 (t.initialMargin * BASIS_POINTS) with
      | none => none
      | some b =>
        some { t with maxLeverage := a / BASIS_POINTS
                      initialMargin := b / EARNINGS_MODE_LEVERAGE_REDUCTION })

/-- `_restoreNormalLeverage()` simply calls `_initializeDefaultTiers()`,
which pushes the four default tiers onto the existing array without
clearing it. -/
def restoreNormalLeverage (tiers : List LeverageTier) : List LeverageTier :=
  tiers ++ defaultTiers

/-- `setEarningsMode(bool enabled)` (admin-only). -/
def setEarningsMode (st : RiskState) (enabled : Bool) : Option RiskState :=
  let cfg := { st.marketConfig with isEarningsMode := enabled }
  if enabled then
    match applyEarningsModeLeverage st.leverageTiers with
    | none => none
    | some tiers2 => some { st with marketConfig := cfg, leverageTiers := tiers2 }
  else
    some { st with marketConfig := cfg, leverageTiers := restoreNormalLeverage st.leverageTiers }

/-- Signed sum of all recorded position sizes. -/
def sumSizes (positions : List (Addr × Position)) : Int :=
  (positions.map (fun e => e.2.size)).sum

/-- A liquidation call: (caller, trader, oracle mark price). -/
abbrev LiqCall := Addr × Addr × Nat

/-- Execute a sequence of `liquidatePosition` calls; reverted calls leave the
state unchanged. -/
def runLiquidations (st : RiskState) (calls : List LiqCall) : RiskState :=
  calls.foldl (fun s c =>
    match liquidatePosition s c.1 c.2.1 c.2.2 with
    | .ok (s2, _, _) => s2
    | .error _ => s) st

/-- A keeper price ingest with fee 1 fully paid, Pyth exponent -8 (so
normalization is the identity on the claim values), confidence 1, and
`block.timestamp` equal to the point's publish time. -/
def ingestCall (st : OracleState) (t : Nat) (price : Int) :
    Except OracleErr (OracleState × List OracleEvent) :=
  updatePriceAndValidate st t 1 1 ⟨price, 1, -8, t⟩

/-- Run a sequence of ingests, collecting the events of each call. -/
def ingestSequence : OracleState → List (Nat × Int) →
    Except OracleErr (OracleState × List (List OracleEvent))
  | st, [] => .ok (st, [])
  | st, (t, price) :: rest =>
    match ingestCall st t price with
    | .error e => .error e
    | .ok (st2, evs) =>
      match ingestSequence st2 rest with
      | .error e => .error e
      | .ok (st3, evss) => .ok (st3, evs :: evss)

/-- Whether an event list carries a `PriceDeviationDetected` signal. -/
def hasDeviationEvent (evs : List OracleEvent) : Bool :=
  evs.any fun e => match e with
    | .PriceDeviationDetected _ _ _ => true
    | _ => false

/-- Whether an event list carries a `CircuitBreakerTriggered` event. -/
def hasTriggerEvent (evs : List OracleEvent) : Bool :=
  evs.any fun e => match e with
    | .CircuitBreakerTriggered _ => true
    | _ => false

/-- The spec scenario: 100.00 three times one second apart, then 111.00,
then 123.00, then a clearly extreme 300.00 (prices in 8-decimal fixed
point). -/
def specScenario : List (Nat × Int) :=
  [(1000, 10000000000), (1001, 10000000000), (1002, 10000000000),
   (1003, 11100000000), (1004, 12300000000), (1005, 30000000000)]

/-- Sixty-one history points with strictly increasing timestamps. -/
def history61 : List PricePoint :=
  (List.range 61).map (fun (i : Nat) => ⟨100 + (i : Int), 1, i⟩)

/-- A full (60-entry) history of 100.00 points at timestamps 940..999. -/
def fullHistory : List PricePoint :=
  (List.range 60).map (fun (i : Nat) => ⟨10000000000, 1, 940 + i⟩)

def stFullHistory : OracleState := { initOracleState with priceHistory := fullHistory }

/-- A state whose newest stored point has timestamp 1000. -/
def stNewest1000 : OracleState :=
  { initOracleState with priceHistory := [⟨10000000000, 1, 1000⟩] }

/-- A state with the circuit breaker active since time 1000. -/
def stBreached : OracleState :=
  { initOracleState with circuitBreakerActive := true
                         lastCircuitBreakerTimestamp := 1000
                         marketPaused := true }

/-- A concrete Pyth price used by witnesses. -/
def pythProbe : PythPrice := ⟨10000000000, 1, -8, 1001⟩

/-- Steps used by the circuit-breaker witness: a failing reset (cool-down not
elapsed), a failing trigger (already active), then an ingest. -/
def demoPre : List OracleStep := [.reset 1100, .trigger 1200]

def demoSteps : List OracleStep := demoPre ++ [.ingest 1201 1 1 pythProbe]

/-- A liquidatable state: trader 7 holds a long of 1.0 unit entered at 100.00
with only 100 base units of margin (far below maintenance), address 5 is a
registered liquidator, and the open-interest counters match the book. -/
def liqState : RiskState :=
  { initRiskState with
      positions := [(7, ⟨100000000, 10000000000, 100, 0, 0⟩)]
      liquidators := [5]
      totalOpenInterest := 100000000
      totalLongOpenInterest := 100000000 }

/-- A funding-rate state: long open interest 30, short 10. -/
def fundState : RiskState :=
  { initRiskState with
      totalOpenInterest := 40
      totalLongOpenInterest := 30
      totalShortOpenInterest := 10 }

set_option maxRecDepth 100000

/-- Claim C1 (code bug).  `_calculatePnl` computes the inner difference with
checked `uint256` subtraction, so the whole health computation reverts
(models to `none`) whenever a long position is below its entry price or a
short position is above it — the claimed sign-correct PnL is never produced
there.  Failing input: a long of 1.0 unit entered at 200.00 marked at
100.00 (and a short entered at 100.00 marked at 200.00). -/
theorem claim_C1_pnl_reverts_at_a_loss :
    calculatePnl ⟨100000000, 20000000000, 5000000000, 0, 0⟩ 10000000000 = none ∧
    calculatePnl ⟨-100000000, 10000000000, 5000000000, 0, 0⟩ 20000000000 = none ∧
    checkPositionHealth [(7, ⟨100000000, 20000000000, 5000000000, 0, 0⟩)]
      defaultTiers 7 10000000000 = none ∧
    calculatePnl ⟨100000000, 10000000000, 5000000000, 0, 0⟩ 15000000000 = some 50000000 := by
  decide

/-- Claim C4 (code bug).  At capacity the trim step of
`_validateAndStorePrice` copies only `history[1]` into `history[0]` and then
pops the tail, so the just-ingested newest point is the one evicted and the
second-oldest entry is duplicated; the oldest-evict shape the claim states
does not hold.  The end-to-end failing input is a 61st in-order ingest into
a full 60-entry history. -/
theorem claim_C4_trim_evicts_newest :
    (trimHistory history61).length = 60 ∧
    trimHistory history61 ≠ history61.drop 1 ∧
    (trimHistory history61).getLast? ≠ history61.getLast? ∧
    (trimHistory history61).getD 0 ⟨0, 0, 0⟩ = (trimHistory history61).getD 1 ⟨0, 0, 0⟩ ∧
    (trimHistory history61).getD 1 ⟨0, 0, 0⟩ = history61.getD 1 ⟨0, 0, 0⟩ ∧
    (updatePriceAndValidate stFullHistory 1000 1 1 ⟨10000000000, 1, -8, 1000⟩).toOption.map
        (fun r => ((r.1.priceHistory.map (fun pt => pt.timestamp)).getLast?,
                   r.1.priceHistory.length))
      = some (some 999, 60) := by
  decide

/-- Claim C7 (code bug).  `liquidatePosition` reads `pos.margin` for the
liquidator reward through the storage reference only after
`delete positions[trader]`, so the reward is always `0 / 10 = 0`; on the
failing input below the pre-liquidation margin is 100, so the claim expects
a reward of 10. -/
theorem claim_C7_reward_is_zero :
    (lookupPosition liqState.positions 7).margin = 100 ∧
    (liquidatePosition liqState 5 7 10000000000).toOption.map
        (fun r => r.2.1) = some 0 := by
  decide

/-- Claim C8 (code bug).  Enabling earnings mode does halve `maxLeverage`
and double `initialMargin` on every tier, but disabling it calls
`_initializeDefaultTiers()` without clearing the array, so the four default
tiers are appended to the four (still halved) current tiers: the
enable-then-disable round trip leaves 8 tiers, not the 4-tier baseline. -/
theorem claim_C8_disable_appends_tiers :
    (setEarningsMode initRiskState true).map (fun s => s.leverageTiers) =
      some [⟨1000000000000, 1000, 1000, 250⟩, ⟨5000000000000, 750, 1334, 333⟩,
            ⟨10000000000000, 500, 2000, 500⟩, ⟨50000000000000, 250, 4000, 1000⟩] ∧
    ((setEarningsMode initRiskState true).bind (fun s => setEarningsMode s false)).map
        (fun s => s.leverageTiers.length) = some 8 ∧
    ((setEarningsMode initRiskState true).bind (fun s => setEarningsMode s false)).map
        (fun s => decide (s.leverageTiers = initRiskState.leverageTiers)) = some false := by
  decide

/-- Claim C5 counterexample.  A fresh point whose timestamp equals the
stored newest timestamp is accepted and appended: `updatePriceAndValidate`
never compares the incoming publish time against the stored newest entry,
so the claimed `StalePrice` failure does not occur. -/
theorem claim_C5_counterexample :
    (updatePriceAndValidate stNewest1000 1000 1 1 ⟨10000000000, 1, -8, 1000⟩).toOption.map
        (fun r => r.1.priceHistory.map (fun pt => pt.timestamp)) = some [1000, 1000] := by
  decide

/-- Claim C3 counterexample.  Running the spec scenario: the 111.00 ingest
(4th call) emits no deviation signal because the deviation check only runs
once the history holds 5 points, and after the 123.00 ingest (5th call) the
circuit breaker is still inactive because the deviation (1516 bps against
the TWAP that includes the new point) is below the 2000 bps auto-trigger
threshold — the claim expects a signal at 111.00 and a trip at 123.00. -/
theorem claim_C3_counterexample :
    (ingestSequence initOracleState (specScenario.take 5)).toOption.map
        (fun r => hasDeviationEvent (r.2.getD 3 [])) = some false ∧
    (ingestSequence initOracleState (specScenario.take 5)).toOption.map
        (fun r => r.1.circuitBreakerActive) = some false := by
  decide

/-- A transaction that is not a successful reset cannot clear an active
circuit breaker. -/
theorem execStep_preserves_active {st : OracleState} {s : OracleStep}
    (h : st.circuitBreakerActive = true) (hr : resetSucceeds st s = false) :
    (execStep st s).circuitBreakerActive = true := by
  cases s with
  | ingest t mv fee p => simp [execStep, stepResult, updatePriceAndValidate, h]
  | trigger t => simp [execStep, stepResult, triggerCircuitBreaker, h]
  | reset t =>
    have hlt : t < st.lastCircuitBreakerTimestamp + 300 := by
      simp [resetSucceeds, h] at hr; omega
    simp [execStep, stepResult, resetCircuitBreaker, h, hlt]

/-- Activity is preserved along any trace without a successful reset. -/
theorem runSteps_preserves_active :
    ∀ (steps : List OracleStep) (st : OracleState),
      st.circuitBreakerActive = true → noSuccessfulReset st steps = true →
      (runSteps st steps).circuitBreakerActive = true := by
  intro steps
  induction steps with
  | nil => intro st h _; simpa [runSteps] using h
  | cons s rest ih =>
    intro st h hn
    rw [noSuccessfulReset] at hn
    simp only [Bool.and_eq_true, Bool.not_eq_true'] at hn
    have hstep : runSteps st (s :: rest) = runSteps (execStep st s) rest := rfl
    rw [hstep]
    exact ih (execStep st s) (execStep_preserves_active h hn.1) hn.2

/-- Splitting a reset-free trace at any point keeps both halves reset-free,
the second half starting from the intermediate state. -/
theorem noSuccessfulReset_append :
    ∀ (xs : List OracleStep) (st : OracleState) (ys : List OracleStep),
      noSuccessfulReset st (xs ++ ys) = true →
      noSuccessfulReset st xs = true ∧ noSuccessfulReset (runSteps st xs) ys = true := by
  intro xs
  induction xs with
  | nil => intro st ys h; exact ⟨rfl, by simpa [runSteps] using h⟩
  | cons s rest ih =>
    intro st ys h
    rw [List.cons_append, noSuccessfulReset] at h
    simp only [Bool.and_eq_true, Bool.not_eq_true'] at h
    have h2 := ih (execStep st s) ys h.2
    refine ⟨?_, ?_⟩
    · rw [noSuccessfulReset]
      simp only [Bool.and_eq_true, Bool.not_eq_true']
      exact ⟨h.1, h2.1⟩
    · have hstep : runSteps st (s :: rest) = runSteps (execStep st s) rest := rfl
      rw [hstep]
      exact h2.2

/-- Claim C2 (confirmed).  Once the breaker is active, every
`updatePriceAndValidate` call fails with `CircuitBreakerActive`, and it
stays active along any trace that contains no successful
`resetCircuitBreaker` — so ingests keep failing until a reset succeeds;
`triggerCircuitBreaker` fails when already active; `resetCircuitBreaker`
fails when not active and fails before the 300-second cool-down. -/
theorem claim_C2_breaker_state_machine :
    (∀ st t mv fee p, st.circuitBreakerActive = true →
       updatePriceAndValidate st t mv fee p = .error .CircuitBreakerActive) ∧
    (∀ st t, st.circuitBreakerActive = true →
       triggerCircuitBreaker st t = .error .AlreadyActive) ∧
    (∀ st t, st.circuitBreakerActive = false →
       resetCircuitBreaker st t = .error .NotActive) ∧
    (∀ st t, st.circuitBreakerActive = true →
       t < st.lastCircuitBreakerTimestamp + 300 →
       resetCircuitBreaker st t = .error .CoolDownNotElapsed) ∧
    (∀ st steps, st.circuitBreakerActive = true → noSuccessfulReset st steps = true →
       (runSteps st steps).circuitBreakerActive = true ∧
       ∀ pre t mv fee p rest, steps = pre ++ OracleStep.ingest t mv fee p :: rest →
         stepResult (runSteps st pre) (OracleStep.ingest t mv fee p) =
           .error .CircuitBreakerActive) := by
  refine ⟨?_, ?_, ?_, ?_, ?_⟩
  · intro st t mv fee p h
    simp [updatePriceAndValidate, h]
  · intro st t h
    simp [triggerCircuitBreaker, h]
  · intro st t h
    simp [resetCircuitBreaker, h]
  · intro st t h hlt
    simp [resetCircuitBreaker, h, hlt]
  · intro st steps h hn
    refine ⟨runSteps_preserves_active steps st h hn, ?_⟩
    intro pre t mv fee p rest hsplit
    subst hsplit
    have hsp := noSuccessfulReset_append pre st _ hn
    have hact := runSteps_preserves_active pre st h hsp.1
    simp [stepResult, updatePriceAndValidate, hact]

/-- Witness for claim C2 at concrete state `stBreached` (triggered at time
1000) and the concrete trace `demoSteps`. -/
theorem claim_C2_breaker_state_machine_witness :
    updatePriceAndValidate stBreached 1001 1 1 pythProbe = .error .CircuitBreakerActive ∧
    triggerCircuitBreaker stBreached 1200 = .error .AlreadyActive ∧
    resetCircuitBreaker initOracleState 0 = .error .NotActive ∧
    resetCircuitBreaker stBreached 1100 = .error .CoolDownNotElapsed ∧
    (runSteps stBreached demoSteps).circuitBreakerActive = true ∧
    stepResult (runSteps stBreached demoPre) (OracleStep.ingest 1201 1 1 pythProbe) =
      .error .CircuitBreakerActive := by
  refine ⟨claim_C2_breaker_state_machine.1 stBreached 1001 1 1 pythProbe (by decide),
          claim_C2_breaker_state_machine.2.1 stBreached 1200 (by decide),
          claim_C2_breaker_state_machine.2.2.1 initOracleState 0 (by decide),
          claim_C2_breaker_state_machine.2.2.2.1 stBreached 1100 (by decide) (by decide),
          (claim_C2_breaker_state_machine.2.2.2.2 stBreached demoSteps (by decide)
            (by decide)).1,
          (claim_C2_breaker_state_machine.2.2.2.2 stBreached demoSteps (by decide)
            (by decide)).2 demoPre 1201 1 1 pythProbe [] (by decide)⟩

/-- The only revert `_normalizePrice` can produce is an arithmetic panic. -/
theorem normalizePrice_error {price expo : Int} {err : OracleErr}
    (h : normalizePrice price expo = .error err) : err = .ArithPanic := by
  simp only [normalizePrice] at h
  split_ifs at h <;> simp_all


/-- `calculateTWAP` never reverts with `StalePrice` or `InsufficientFee`. -/
theorem calculateTWAP_error_kinds {hist : List PricePoint} {t d : Nat} {err : OracleErr}
    (h : calculateTWAP hist t d = .error err) :
    err ≠ .StalePrice ∧ err ≠ .InsufficientFee := by
  simp only [calculateTWAP] at h
  split_ifs at h <;>
    first
      | (simp only [Except.error.injEq] at h; subst h; exact ⟨by decide, by decide⟩)
      | simp at h

/-- The only revert of `checkPriceDeviation` is the invalid-prices require. -/
theorem checkPriceDeviation_error {spot twap : Int} {err : OracleErr}
    (h : checkPriceDeviation spot twap = .error err) : err = .InvalidPrices := by
  simp only [checkPriceDeviation] at h
  split_ifs at h <;> simp_all

/-- The deviation block never reverts with `StalePrice` or `InsufficientFee`. -/
theorem deviationCheck_error_kinds {st : OracleState} {t : Nat} {np : Int} {err : OracleErr}
    (h : deviationCheck st t np = .error err) :
    err ≠ .StalePrice ∧ err ≠ .InsufficientFee := by
  unfold deviationCheck at h
  split at h
  · split at h
    next e heq =>
      simp only [Except.error.injEq] at h
      subst h
      exact calculateTWAP_error_kinds heq
    next twap heq =>
      split at h
      next e heq2 =>
        simp only [Except.error.injEq] at h
        subst h
        have h3 := checkPriceDeviation_error heq2
        subst h3
        exact ⟨by decide, by decide⟩
      next isDev bps heq2 =>
        split_ifs at h <;> simp at h
  · simp at h

/-- The store body never reverts with `StalePrice` or `InsufficientFee`. -/
theorem storePriceBody_error_kinds {st : OracleState} {t : Nat} {p : PythPrice}
    {err : OracleErr} (h : storePriceBody st t p = .error err) :
    err ≠ .StalePrice ∧ err ≠ .InsufficientFee := by
  unfold storePriceBody at h
  split at h
  next e heq =>
    simp only [Except.error.injEq] at h
    subst h
    have := normalizePrice_error heq
    subst this
    exact ⟨by decide, by decide⟩
  next np heq =>
    split at h
    next e heq2 =>
      simp only [Except.error.injEq] at h
      subst h
      have := normalizePrice_error heq2
      subst this
      exact ⟨by decide, by decide⟩
    next nc0 heq2 =>
      split at h
      next e heq3 =>
        simp only [Except.error.injEq] at h
        subst h
        exact deviationCheck_error_kinds heq3
      next st2 evs heq3 => simp at h

/-- `_validateAndStorePrice` fails with `StalePrice` exactly when the block
timestamp exceeds the publish time by more than `MAX_PRICE_STALENESS`. -/
theorem validateAndStorePrice_stale_iff {st : OracleState} {t : Nat} {p : PythPrice} :
    validateAndStorePrice st t p = .error .StalePrice ↔
      p.publishTime ≤ t ∧ MAX_PRICE_STALENESS < t - p.publishTime := by
  unfold validateAndStorePrice
  constructor
  · intro h
    split_ifs at h with h1 h2
    · simp at h
    · exact ⟨by omega, h2⟩
    · exact absurd rfl (storePriceBody_error_kinds h).1
  · intro hc
    split_ifs with h1 h2
    · omega
    · rfl
    · omega

/-- `_validateAndStorePrice` never fails with `InsufficientFee`. -/
theorem validateAndStorePrice_not_fee {st : OracleState} {t : Nat} {p : PythPrice}
    (h : validateAndStorePrice st t p = .error .InsufficientFee) : False := by
  unfold validateAndStorePrice at h
  split_ifs at h
  · simp at h
  · simp at h
  · exact absurd rfl (storePriceBody_error_kinds h).2

/-- Claim C5 amended (corrected).  With the breaker inactive,
`updatePriceAndValidate` fails with `InsufficientFee` exactly when
`msg.value` is below the required fee, and (fee paid) fails with
`StalePrice` exactly when the block timestamp exceeds the point's publish
time by more than 10 seconds; no comparison against the stored newest entry
is made (see the counterexample, where an equal-timestamp point is
appended). -/
theorem claim_C5_error_conditions :
    (∀ st t mv fee p, st.circuitBreakerActive = false →
       (updatePriceAndValidate st t mv fee p = .error .InsufficientFee ↔ mv < fee)) ∧
    (∀ st t mv fee p, st.circuitBreakerActive = false → fee ≤ mv →
       (updatePriceAndValidate st t mv fee p = .error .StalePrice ↔
          p.publishTime ≤ t ∧ MAX_PRICE_STALENESS < t - p.publishTime)) := by
  constructor
  · intro st t mv fee p h
    simp only [updatePriceAndValidate, h, Bool.false_eq_true, if_false]
    by_cases hv : mv < fee
    · simp [hv]
    · simp only [if_neg hv]
      constructor
      · intro hcl
        exact (validateAndStorePrice_not_fee hcl).elim
      · intro hcl
        exact absurd hcl hv
  · intro st t mv fee p h hv
    have hv2 : ¬mv < fee := by omega
    simp only [updatePriceAndValidate, h, Bool.false_eq_true, if_false, if_neg hv2]
    exact validateAndStorePrice_stale_iff

/-- Witness for claim C5: an underpaid call (fee 2, value 1) is rejected
with `InsufficientFee`, and a stale point (publish time 980 at block time
1000) is rejected with `StalePrice`. -/
theorem claim_C5_error_conditions_witness :
    (updatePriceAndValidate stNewest1000 1000 1 2 ⟨10000000000, 1, -8, 980⟩ =
       .error .InsufficientFee ↔ (1 : Nat) < 2) ∧
    (updatePriceAndValidate stNewest1000 1000 1 1 ⟨10000000000, 1, -8, 980⟩ =
       .error .StalePrice ↔ ((980 : Nat) ≤ 1000 ∧ MAX_PRICE_STALENESS < 1000 - 980)) := by
  exact ⟨claim_C5_error_conditions.1 stNewest1000 1000 1 2 ⟨10000000000, 1, -8, 980⟩ (by decide),
         claim_C5_error_conditions.2 stNewest1000 1000 1 1 ⟨10000000000, 1, -8, 980⟩ (by decide)
           (by decide)⟩

theorem hasDeviationEvent_append (a b : List OracleEvent) :
    hasDeviationEvent (a ++ b) = (hasDeviationEvent a || hasDeviationEvent b) := by
  simp [hasDeviationEvent, List.any_append]

theorem hasTriggerEvent_append (a b : List OracleEvent) :
    hasTriggerEvent (a ++ b) = (hasTriggerEvent a || hasTriggerEvent b) := by
  simp [hasTriggerEvent, List.any_append]

/-- A successful `checkPriceDeviation` reports deviation exactly beyond
`MAX_DEVIATION_PERCENT`. -/
theorem checkPriceDeviation_ok_bps {spot twap : Int} {isDev : Bool} {bps : Nat}
    (h : checkPriceDeviation spot twap = .ok (isDev, bps)) :
    isDev = decide (MAX_DEVIATION_PERCENT < bps) := by
  simp only [checkPriceDeviation] at h
  split_ifs at h <;>
    first
      | (simp only [Except.ok.injEq, Prod.mk.injEq] at h
         obtain ⟨h1, h2⟩ := h
         subst h2
         exact h1.symm)
      | simp at h

/-- Full classification of a successful deviation block: no effect below 5
history entries; otherwise a deviation event exactly beyond the 10%
threshold and a breaker trip exactly beyond the 2x threshold. -/
theorem deviationCheck_ok_spec {st : OracleState} {t : Nat} {np : Int} {st2 : OracleState}
    {evs : List OracleEvent} (h : deviationCheck st t np = .ok (st2, evs)) :
    st2.priceHistory = st.priceHistory ∧
    (st.priceHistory.length < 5 → st2 = st ∧ evs = []) ∧
    (hasTriggerEvent evs = true →
       st2.circuitBreakerActive = true ∧ st2.marketPaused = true ∧
       ∃ twap bps, evs = [.PriceDeviationDetected np twap bps, .CircuitBreakerTriggered t] ∧
         calculateTWAP st.priceHistory t 60 = .ok twap ∧
         checkPriceDeviation np twap = .ok (true, bps) ∧
         MAX_DEVIATION_PERCENT * 2 < bps) ∧
    (hasTriggerEvent evs = false → st2.circuitBreakerActive = st.circuitBreakerActive) ∧
    (hasDeviationEvent evs = true →
       ∃ twap bps, calculateTWAP st.priceHistory t 60 = .ok twap ∧
         checkPriceDeviation np twap = .ok (true, bps) ∧ MAX_DEVIATION_PERCENT < bps ∧
         OracleEvent.PriceDeviationDetected np twap bps ∈ evs ∧
         5 ≤ st.priceHistory.length) ∧
    (5 ≤ st.priceHistory.length →
       ∃ twap isDev bps,
         calculateTWAP st.priceHistory t 60 = .ok twap ∧
         checkPriceDeviation np twap = .ok (isDev, bps) ∧
         (isDev = true → hasDeviationEvent evs = true) ∧
         (isDev = true → MAX_DEVIATION_PERCENT * 2 < bps →
            st2.circuitBreakerActive = true ∧ st2.marketPaused = true ∧
            hasTriggerEvent evs = true)) := by
  unfold deviationCheck at h
  split at h
  next h5 =>
    split at h
    next e heq => simp at h
    next twap heq =>
      split at h
      next e heq2 => simp at h
      next isDev bps heq2 =>
        split_ifs at h with hdev hbig
        · subst hdev
          simp only [Except.ok.injEq, Prod.mk.injEq] at h
          obtain ⟨hst, hevs⟩ := h
          subst hst
          subst hevs
          refine ⟨rfl, fun hlt => absurd h5 (by omega), ?_, ?_, ?_, ?_⟩
          · intro _
            exact ⟨rfl, rfl, twap, bps, rfl, heq, heq2, hbig⟩
          · intro habs
            simp [hasTriggerEvent] at habs
          · intro _
            exact ⟨twap, bps, heq, heq2, by omega, by simp, h5⟩
          · intro _
            exact ⟨twap, true, bps, heq, heq2, fun _ => by simp [hasDeviationEvent],
                   fun _ _ => ⟨rfl, rfl, by simp [hasTriggerEvent]⟩⟩
        · subst hdev
          simp only [Except.ok.injEq, Prod.mk.injEq] at h
          obtain ⟨hst, hevs⟩ := h
          subst hst
          subst hevs
          refine ⟨rfl, fun hlt => absurd h5 (by omega), ?_, fun _ => rfl, ?_, ?_⟩
          · intro habs
            simp [hasTriggerEvent] at habs
          · intro _
            have hb := checkPriceDeviation_ok_bps heq2
            refine ⟨twap, bps, heq, heq2, by simpa using hb.symm, by simp, h5⟩
          · intro _
            exact ⟨twap, true, bps, heq, heq2, fun _ => by simp [hasDeviationEvent],
                   fun _ hbig2 => absurd hbig2 hbig⟩
        · simp only [Except.ok.injEq, Prod.mk.injEq] at h
          obtain ⟨hst, hevs⟩ := h
          subst hst
          subst hevs
          refine ⟨rfl, fun hlt => ⟨rfl, rfl⟩, ?_, fun _ => rfl, ?_, ?_⟩
          · intro habs
            simp [hasTriggerEvent] at habs
          · intro habs
            simp [hasDeviationEvent] at habs
          · intro _
            exact ⟨twap, isDev, bps, heq, heq2, fun habs => absurd habs hdev,
                   fun habs _ => absurd habs hdev⟩
  next h5 =>
    simp only [Except.ok.injEq, Prod.mk.injEq] at h
    obtain ⟨hst, hevs⟩ := h
    subst hst
    subst hevs
    refine ⟨rfl, fun _ => ⟨rfl, rfl⟩, ?_, fun _ => rfl, ?_, fun habs => absurd habs h5⟩
    · intro habs
      simp [hasTriggerEvent] at habs
    · intro habs
      simp [hasDeviationEvent] at habs

/-- Decomposition of a successful ingest: the breaker was inactive, the
final `PriceUpdated` event follows the deviation events, and the deviation
block ran on the post-insert, post-trim history. -/
theorem updatePriceAndValidate_ok_spec {st : OracleState} {t mv fee : Nat} {p : PythPrice}
    {st2 : OracleState} {evs : List OracleEvent}
    (h : updatePriceAndValidate st t mv fee p = .ok (st2, evs)) :
    st.circuitBreakerActive = false ∧
    ∃ np nc evs0,
      normalizePrice p.price p.expo = .ok np ∧
      evs = evs0 ++ [.PriceUpdated np nc p.publishTime] ∧
      deviationCheck
        { st with priceHistory := trimHistory (st.priceHistory ++ [⟨np, nc, p.publishTime⟩]) }
        t np = .ok (st2, evs0) := by
  unfold updatePriceAndValidate at h
  split_ifs at h with hcb hfee
  all_goals try exact absurd h (by simp)
  · unfold validateAndStorePrice at h
    split_ifs at h with h1 h2
    all_goals try exact absurd h (by simp)
    · unfold storePriceBody at h
      split at h
      next e heq => simp at h
      next np heq =>
        split at h
        next e heq2 => simp at h
        next nc0 heq2 =>
          split at h
          next e heq3 => simp at h
          next st2a evs0 heq3 =>
            simp only [Except.ok.injEq, Prod.mk.injEq] at h
            obtain ⟨hst, hevs⟩ := h
            subst hst
            refine ⟨by simpa using hcb, np, u64wrap nc0, evs0, heq, hevs.symm, heq3⟩

/-- Claim C3 amended (corrected).  For every successful ingest: the
deviation check runs only once the post-insert (post-trim) history has at
least 5 entries, and the TWAP it compares against already includes the
just-stored point; a deviation signal is emitted only beyond
`MAX_DEVIATION_PERCENT` (1000 bps) and the adapter trips the breaker and
pauses the market exactly when the deviation also exceeds twice that
threshold.  In the spec scenario the 111.00 ingest emits no signal (only 4
points stored), the 123.00 ingest emits a signal at 1516 bps without
tripping the breaker, and a further 300.00 ingest does trip it. -/
theorem claim_C3_deviation_behaviour :
    (∀ st t mv fee p st2 evs,
       updatePriceAndValidate st t mv fee p = .ok (st2, evs) →
       st2.priceHistory.length < 5 →
       hasDeviationEvent evs = false ∧ hasTriggerEvent evs = false ∧
       st2.circuitBreakerActive = st.circuitBreakerActive) ∧
    (∀ st t mv fee p st2 evs,
       updatePriceAndValidate st t mv fee p = .ok (st2, evs) →
       hasTriggerEvent evs = true →
       st2.circuitBreakerActive = true ∧ st2.marketPaused = true ∧
       ∃ np twap bps, OracleEvent.PriceDeviationDetected np twap bps ∈ evs ∧
         checkPriceDeviation np twap = .ok (true, bps) ∧
         MAX_DEVIATION_PERCENT * 2 < bps) ∧
    (∀ st t mv fee p st2 evs,
       updatePriceAndValidate st t mv fee p = .ok (st2, evs) →
       hasTriggerEvent evs = false →
       st2.circuitBreakerActive = st.circuitBreakerActive) ∧
    (∀ st t mv fee p st2 evs,
       updatePriceAndValidate st t mv fee p = .ok (st2, evs) →
       hasDeviationEvent evs = true →
       5 ≤ st2.priceHistory.length ∧
       ∃ np twap bps, OracleEvent.PriceDeviationDetected np twap bps ∈ evs ∧
         calculateTWAP st2.priceHistory t 60 = .ok twap ∧
         checkPriceDeviation np twap = .ok (true, bps) ∧ MAX_DEVIATION_PERCENT < bps) ∧
    (∀ st t mv fee p st2 evs np twap bps,
       updatePriceAndValidate st t mv fee p = .ok (st2, evs) →
       normalizePrice p.price p.expo = .ok np →
       5 ≤ st2.priceHistory.length →
       calculateTWAP st2.priceHistory t 60 = .ok twap →
       checkPriceDeviation np twap = .ok (true, bps) →
       hasDeviationEvent evs = true ∧
       (MAX_DEVIATION_PERCENT * 2 < bps →
          st2.circuitBreakerActive = true ∧ st2.marketPaused = true ∧
          hasTriggerEvent evs = true)) ∧
    ((ingestSequence initOracleState specScenario).toOption.map
        (fun r => hasDeviationEvent (r.2.getD 3 [])) = some false ∧
     (ingestSequence initOracleState specScenario).toOption.map
        (fun r => ((r.2.getD 4 []).contains
             (OracleEvent.PriceDeviationDetected 12300000000 10680000000 1516),
           hasTriggerEvent (r.2.getD 4 []))) = some (true, false) ∧
     (ingestSequence initOracleState specScenario).toOption.map
        (fun r => (r.1.circuitBreakerActive, r.1.marketPaused,
           hasTriggerEvent (r.2.getD 5 []))) = some (true, true, true)) := by
  refine ⟨?_, ?_, ?_, ?_, ?_, by decide, by decide, by decide⟩
  · intro st t mv fee p st2 evs h hlen
    obtain ⟨hcb, np, nc, evs0, hnorm2, hevs, hdc⟩ := updatePriceAndValidate_ok_spec h
    have spec := deviationCheck_ok_spec hdc
    have hlen2 : (trimHistory (st.priceHistory ++ [⟨np, nc, p.publishTime⟩])).length < 5 := by
      have := spec.1
      simp only [this] at hlen ⊢
      exact hlen
    obtain ⟨hst2, hevs0⟩ := spec.2.1 hlen2
    subst hevs0
    subst hevs
    refine ⟨by simp [hasDeviationEvent], by simp [hasTriggerEvent], ?_⟩
    rw [hst2]
  · intro st t mv fee p st2 evs h htr
    obtain ⟨hcb, np, nc, evs0, hnorm2, hevs, hdc⟩ := updatePriceAndValidate_ok_spec h
    have spec := deviationCheck_ok_spec hdc
    have htr0 : hasTriggerEvent evs0 = true := by
      subst hevs
      simp only [hasTriggerEvent_append] at htr
      simpa [hasTriggerEvent] using htr
    obtain ⟨hact, hpaus, twap, bps, hevs0, htwap, hchk, hbig⟩ := spec.2.2.1 htr0
    refine ⟨hact, hpaus, np, twap, bps, ?_, hchk, hbig⟩
    subst hevs
    subst hevs0
    simp
  · intro st t mv fee p st2 evs h htr
    obtain ⟨hcb, np, nc, evs0, hnorm2, hevs, hdc⟩ := updatePriceAndValidate_ok_spec h
    have spec := deviationCheck_ok_spec hdc
    have htr0 : hasTriggerEvent evs0 = false := by
      subst hevs
      simp only [hasTriggerEvent_append] at htr
      exact (Bool.or_eq_false_iff.mp htr).1
    rw [spec.2.2.2.1 htr0]
  · intro st t mv fee p st2 evs h hdev
    obtain ⟨hcb, np, nc, evs0, hnorm2, hevs, hdc⟩ := updatePriceAndValidate_ok_spec h
    have spec := deviationCheck_ok_spec hdc
    have hdev0 : hasDeviationEvent evs0 = true := by
      subst hevs
      simp only [hasDeviationEvent_append] at hdev
      simpa [hasDeviationEvent] using hdev
    obtain ⟨twap, bps, htwap, hchk, hgt, hmem, hlen5⟩ := spec.2.2.2.2.1 hdev0
    have hh : st2.priceHistory = trimHistory (st.priceHistory ++ [⟨np, nc, p.publishTime⟩]) :=
      spec.1
    refine ⟨by rw [hh]; exact hlen5, np, twap, bps, ?_, by rw [hh]; exact htwap, hchk, hgt⟩
    subst hevs
    exact List.mem_append_left _ hmem
  · intro st t mv fee p st2 evs np twap bps h hnorm hlen htwap hchk
    obtain ⟨hcb, np2, nc, evs0, hnorm2, hevs, hdc⟩ := updatePriceAndValidate_ok_spec h
    rw [hnorm] at hnorm2
    have hnp : np2 = np := Except.ok.inj hnorm2.symm
    subst hnp
    have spec := deviationCheck_ok_spec hdc
    have hh : st2.priceHistory =
        trimHistory (st.priceHistory ++ [⟨np2, nc, p.publishTime⟩]) := spec.1
    rw [hh] at hlen htwap
    obtain ⟨twap2, isDev2, bps2, htw2, hchk2, hdevimp, htripimp⟩ := spec.2.2.2.2.2 hlen
    rw [htwap] at htw2
    have htv : twap2 = twap := Except.ok.inj htw2.symm
    subst htv
    rw [hchk] at hchk2
    have hpair := Except.ok.inj hchk2.symm
    have hid : isDev2 = true := by
      have := congrArg Prod.fst hpair
      simpa using this
    have hbp : bps2 = bps := by
      have := congrArg Prod.snd hpair
      simpa using this
    subst hid
    subst hbp
    constructor
    · subst hevs
      rw [hasDeviationEvent_append, hdevimp rfl]
      simp
    · intro hbig
      obtain ⟨ha, hp2, htr⟩ := htripimp rfl hbig
      refine ⟨ha, hp2, ?_⟩
      subst hevs
      rw [hasTriggerEvent_append, htr]
      simp

/-- Witness for claim C3: the first scenario ingest (history below 5
entries: no deviation signal, breaker unchanged) and the 300.00 ingest into
the 5-point scenario history (deviation 11582 bps beyond the 2x threshold:
signal emitted, breaker tripped, market paused). -/
theorem claim_C3_deviation_behaviour_witness :
    (hasDeviationEvent [OracleEvent.PriceUpdated 10000000000 1 1000] = false ∧
     hasTriggerEvent [OracleEvent.PriceUpdated 10000000000 1 1000] = false ∧
     ({ initOracleState with
          priceHistory := [⟨10000000000, 1, 1000⟩] } : OracleState).circuitBreakerActive =
       initOracleState.circuitBreakerActive) ∧
    hasDeviationEvent
      [OracleEvent.PriceDeviationDetected 30000000000 13900000000 11582,
       OracleEvent.CircuitBreakerTriggered 1005,
       OracleEvent.PriceUpdated 30000000000 1 1005] = true ∧
    (⟨true, 1005,
      [⟨10000000000, 1, 1000⟩, ⟨10000000000, 1, 1001⟩, ⟨10000000000, 1, 1002⟩,
       ⟨11100000000, 1, 1003⟩, ⟨12300000000, 1, 1004⟩, ⟨30000000000, 1, 1005⟩],
      true⟩ : OracleState).circuitBreakerActive = true ∧
    (⟨true, 1005,
      [⟨10000000000, 1, 1000⟩, ⟨10000000000, 1, 1001⟩, ⟨10000000000, 1, 1002⟩,
       ⟨11100000000, 1, 1003⟩, ⟨12300000000, 1, 1004⟩, ⟨30000000000, 1, 1005⟩],
      true⟩ : OracleState).marketPaused = true ∧
    hasTriggerEvent
      [OracleEvent.PriceDeviationDetected 30000000000 13900000000 11582,
       OracleEvent.CircuitBreakerTriggered 1005,
       OracleEvent.PriceUpdated 30000000000 1 1005] = true := by
  have h4 := claim_C3_deviation_behaviour.1 initOracleState 1000 1 1
    ⟨10000000000, 1, -8, 1000⟩
    { initOracleState with priceHistory := [⟨10000000000, 1, 1000⟩] }
    [OracleEvent.PriceUpdated 10000000000 1 1000] (by decide) (by decide)
  have h5 := claim_C3_deviation_behaviour.2.2.2.2.1
    (⟨false, 0,
      [⟨10000000000, 1, 1000⟩, ⟨10000000000, 1, 1001⟩, ⟨10000000000, 1, 1002⟩,
       ⟨11100000000, 1, 1003⟩, ⟨12300000000, 1, 1004⟩], false⟩ : OracleState)
    1005 1 1 ⟨30000000000, 1, -8, 1005⟩
    (⟨true, 1005,
      [⟨10000000000, 1, 1000⟩, ⟨10000000000, 1, 1001⟩, ⟨10000000000, 1, 1002⟩,
       ⟨11100000000, 1, 1003⟩, ⟨12300000000, 1, 1004⟩, ⟨30000000000, 1, 1005⟩],
      true⟩ : OracleState)
    [OracleEvent.PriceDeviationDetected 30000000000 13900000000 11582,
     OracleEvent.CircuitBreakerTriggered 1005,
     OracleEvent.PriceUpdated 30000000000 1 1005]
    30000000000 13900000000 11582
    (by decide) (by decide) (by decide) (by decide) (by decide)
  exact ⟨h4, h5.1, (h5.2 (by decide)).1, (h5.2 (by decide)).2.1, (h5.2 (by decide)).2.2⟩

theorem chk256_some {x y : Int} (h : chk256 x = some y) : y = x := by
  unfold chk256 at h
  split_ifs at h
  exact Option.some.inj h.symm

theorem sdiv256_some {a b q : Int} (h : sdiv256 a b = some q) : q = Int.tdiv a b := by
  unfold sdiv256 at h
  split_ifs at h
  exact chk256_some h

theorem absInt256_some {v : Int} {n : Nat} (h : absInt256 v = some n) : n = v.natAbs := by
  unfold absInt256 at h
  split_ifs at h
  exact Option.some.inj h.symm

/-- A successful `_updateOpenInterest` adds the delta to the total and to
the matching directional counter, leaving everything else unchanged. -/
theorem updateOpenInterest_ok {st : RiskState} {d : Int} {st1 : RiskState}
    (h : updateOpenInterest st d = some st1) :
    st1.totalOpenInterest = st.totalOpenInterest + d ∧
    (0 < d → st1.totalLongOpenInterest = st.totalLongOpenInterest + d ∧
             st1.totalShortOpenInterest = st.totalShortOpenInterest) ∧
    (¬0 < d → st1.totalShortOpenInterest = st.totalShortOpenInterest + -d ∧
              st1.totalLongOpenInterest = st.totalLongOpenInterest) ∧
    st1.positions = st.positions ∧ st1.marketConfig = st.marketConfig ∧
    st1.leverageTiers = st.leverageTiers ∧ st1.liquidators = st.liquidators := by
  unfold updateOpenInterest at h
  split at h
  next heq => simp at h
  next newTotal heq =>
    have h1 := chk256_some heq
    split_ifs at h with hd
    · split at h
      next heq2 => simp at h
      next newLong heq2 =>
        have h2 := chk256_some heq2
        simp only [Option.some.injEq] at h
        subst h
        exact ⟨by simp [h1], fun _ => ⟨by simp [h2], by simp⟩,
               fun habs => absurd hd habs, by simp, by simp, by simp, by simp⟩
    · split at h
      next heq2 => simp at h
      next negD heq2 =>
        have h2 := chk256_some heq2
        split at h
        next heq3 => simp at h
        next newShort heq3 =>
          have h3 := chk256_some heq3
          simp only [Option.some.injEq] at h
          subst h
          exact ⟨by simp [h1], fun habs => absurd habs hd,
                 fun _ => ⟨by simp [h3, h2], by simp⟩, by simp, by simp, by simp, by simp⟩

/-- Specification of a successful `liquidatePosition`: the trader's entries
are zeroed, the open-interest counters move by the prior signed size, and
the reward is read from the already-cleared slot. -/
theorem liquidatePosition_ok {st : RiskState} {caller trader : Addr} {markPrice : Nat}
    {st2 : RiskState} {reward : Nat} {pnl : Int}
    (h : liquidatePosition st caller trader markPrice = .ok (st2, reward, pnl)) :
    (lookupPosition st.positions trader).size ≠ 0 ∧
    st2.positions = st.positions.map
      (fun e => if e.1 == trader then (e.1, zeroPosition) else e) ∧
    st2.totalOpenInterest = st.totalOpenInterest - (lookupPosition st.positions trader).size ∧
    (0 < -(lookupPosition st.positions trader).size →
       st2.totalLongOpenInterest =
         st.totalLongOpenInterest + -(lookupPosition st.positions trader).size ∧
       st2.totalShortOpenInterest = st.totalShortOpenInterest) ∧
    (¬0 < -(lookupPosition st.positions trader).size →
       st2.totalShortOpenInterest =
         st.totalShortOpenInterest + (lookupPosition st.positions trader).size ∧
       st2.totalLongOpenInterest = st.totalLongOpenInterest) ∧
    reward = (lookupPosition st2.positions trader).margin / 10 ∧
    st2.marketConfig = st.marketConfig ∧ st2.leverageTiers = st.leverageTiers ∧
    st2.liquidators = st.liquidators := by
  simp only [liquidatePosition] at h
  split_ifs at h with hub hpaus hsz
  split at h
  next heq => simp at h
  next pr heq =>
    split_ifs at h with hhealthy
    split at h
    next heq2 => simp at h
    next pnl2 heq2 =>
      split at h
      next heq3 => simp at h
      next sizeDelta heq3 =>
        split at h
        next heq4 => simp at h
        next st1 heq4 =>
          have hdelta := chk256_some heq3
          have hoi := updateOpenInterest_ok heq4
          simp only [Except.ok.injEq, Prod.mk.injEq] at h
          obtain ⟨hst, hrew, hpnl⟩ := h
          subst hst
          refine ⟨hsz, by simp, ?_, ?_, ?_, ?_,
                  by simp [hoi.2.2.2.2.1], by simp [hoi.2.2.2.2.2.1],
                  by simp [hoi.2.2.2.2.2.2]⟩
          · have := hoi.1
            simp only [this, hdelta]
            omega
          · intro hpos
            rw [hdelta] at hoi
            exact ⟨by simp [(hoi.2.1 hpos).1], by simp [(hoi.2.1 hpos).2]⟩
          · intro hneg
            rw [hdelta] at hoi
            refine ⟨?_, by simp [(hoi.2.2.1 hneg).2]⟩
            have := (hoi.2.2.1 hneg).1
            simp only [this]
            omega
          · rw [← hrew]

theorem sumSizes_cons (e : Addr × Position) (rest : List (Addr × Position)) :
    sumSizes (e :: rest) = e.2.size + sumSizes rest := by
  simp [sumSizes, List.sum_cons]

theorem lookupPosition_cons_eq {e : Addr × Position} {rest : List (Addr × Position)}
    {a : Addr} (h : (e.1 == a) = true) : lookupPosition (e :: rest) a = e.2 := by
  have hf : List.find? (fun x => x.1 == a) (e :: rest) = some e :=
    List.find?_cons_of_pos _ h
  unfold lookupPosition
  rw [hf]

theorem lookupPosition_cons_ne {e : Addr × Position} {rest : List (Addr × Position)}
    {a : Addr} (h : (e.1 == a) = false) :
    lookupPosition (e :: rest) a = lookupPosition rest a := by
  have hf : List.find? (fun x => x.1 == a) (e :: rest) =
      List.find? (fun x => x.1 == a) rest :=
    List.find?_cons_of_neg _ (by simp [h])
  unfold lookupPosition
  rw [hf]

/-- Zeroing the trader's entries keeps the key list unchanged. -/
theorem zeroOut_keys (ps : List (Addr × Position)) (trader : Addr) :
    (ps.map (fun e => if e.1 == trader then (e.1, zeroPosition) else e)).map Prod.fst =
      ps.map Prod.fst := by
  induction ps with
  | nil => rfl
  | cons e rest ih =>
    simp only [List.map_cons, ih, List.cons.injEq, and_true]
    split <;> rfl

/-- Entries whose key is absent are untouched by the zeroing map. -/
theorem zeroOut_not_mem {ps : List (Addr × Position)} {trader : Addr}
    (h : trader ∉ ps.map Prod.fst) :
    ps.map (fun e => if e.1 == trader then (e.1, zeroPosition) else e) = ps := by
  induction ps with
  | nil => rfl
  | cons e rest ih =>
    simp only [List.map_cons, List.mem_cons, not_or] at h ⊢
    rw [if_neg (by simpa using fun hc => h.1 hc.symm), ih h.2]

theorem lookupPosition_not_mem {ps : List (Addr × Position)} {a : Addr}
    (h : a ∉ ps.map Prod.fst) : lookupPosition ps a = zeroPosition := by
  induction ps with
  | nil => rfl
  | cons e rest ih =>
    simp only [List.map_cons, List.mem_cons, not_or] at h
    rw [lookupPosition_cons_ne (by simpa using fun hc => h.1 hc.symm)]
    exact ih h.2

/-- After zeroing, the trader's slot reads as the zero position. -/
theorem lookupPosition_zeroOut_self (ps : List (Addr × Position)) (trader : Addr) :
    lookupPosition (ps.map (fun e => if e.1 == trader then (e.1, zeroPosition) else e))
      trader = zeroPosition := by
  induction ps with
  | nil => rfl
  | cons e rest ih =>
    simp only [List.map_cons]
    by_cases he : (e.1 == trader) = true
    · rw [if_pos he, lookupPosition_cons_eq
        (show (((e.1, zeroPosition) : Addr × Position).1 == trader) = true from he)]
    · have hf : (e.1 == trader) = false := by simpa using he
      rw [if_neg he, lookupPosition_cons_ne hf]
      exact ih

/-- Zeroing one trader does not change any other slot. -/
theorem lookupPosition_zeroOut_other (ps : List (Addr × Position)) (trader a : Addr)
    (h : a ≠ trader) :
    lookupPosition (ps.map (fun e => if e.1 == trader then (e.1, zeroPosition) else e)) a =
      lookupPosition ps a := by
  induction ps with
  | nil => rfl
  | cons e rest ih =>
    simp only [List.map_cons]
    by_cases he : (e.1 == trader) = true
    · have he2 : e.1 = trader := by simpa using he
      have hea : (e.1 == a) = false := by
        simp only [beq_eq_false_iff_ne, ne_eq]
        intro hc
        exact h (hc ▸ he2)
      rw [if_pos he,
          lookupPosition_cons_ne
            (show (((e.1, zeroPosition) : Addr × Position).1 == a) = false from hea),
          lookupPosition_cons_ne hea]
      exact ih
    · rw [if_neg he]
      by_cases hea : (e.1 == a) = true
      · rw [lookupPosition_cons_eq hea, lookupPosition_cons_eq hea]
      · have hea2 : (e.1 == a) = false := by simpa using hea
        rw [lookupPosition_cons_ne hea2, lookupPosition_cons_ne hea2]
        exact ih

/-- With unique keys, zeroing the trader removes exactly that entry's size
from the signed sum. -/
theorem sumSizes_zeroOut (ps : List (Addr × Position)) (trader : Addr)
    (hnd : (ps.map Prod.fst).Nodup) :
    sumSizes (ps.map (fun e => if e.1 == trader then (e.1, zeroPosition) else e)) =
      sumSizes ps - (lookupPosition ps trader).size := by
  induction ps with
  | nil => simp [sumSizes, lookupPosition, zeroPosition]
  | cons e rest ih =>
    simp only [List.map_cons, List.nodup_cons] at hnd
    by_cases he : (e.1 == trader) = true
    · have htr : trader = e.1 := (beq_iff_eq.mp he).symm
      rw [List.map_cons, if_pos he, sumSizes_cons, sumSizes_cons]
      rw [lookupPosition_cons_eq he]
      have hnm : trader ∉ rest.map Prod.fst := htr ▸ hnd.1
      rw [zeroOut_not_mem hnm]
      simp only [zeroPosition]
      omega
    · have hf : (e.1 == trader) = false := by simpa using he
      rw [List.map_cons, if_neg he, sumSizes_cons, sumSizes_cons]
      rw [lookupPosition_cons_ne hf, ih hnd.2]
      omega

/-- Claim C6 (confirmed).  A successful liquidation zeroes exactly the
liquidated slot and moves `totalOpenInterest` by the negation of the prior
signed size, and along any sequence of liquidation calls the signed sum of
recorded position sizes stays equal to `totalOpenInterest`. -/
theorem claim_C6_open_interest_invariant :
    (∀ st caller trader markPrice st2 reward pnl,
       liquidatePosition st caller trader markPrice = .ok (st2, reward, pnl) →
       lookupPosition st2.positions trader = zeroPosition ∧
       (∀ a, a ≠ trader → lookupPosition st2.positions a = lookupPosition st.positions a) ∧
       st2.totalOpenInterest =
         st.totalOpenInterest - (lookupPosition st.positions trader).size) ∧
    (∀ st calls,
       (st.positions.map Prod.fst).Nodup →
       sumSizes st.positions = st.totalOpenInterest →
       sumSizes (runLiquidations st calls).positions =
         (runLiquidations st calls).totalOpenInterest) := by
  constructor
  · intro st caller trader markPrice st2 reward pnl h
    obtain ⟨hsz, hpos, hoi, _⟩ := liquidatePosition_ok h
    refine ⟨?_, ?_, hoi⟩
    · rw [hpos]
      exact lookupPosition_zeroOut_self st.positions trader
    · intro a ha
      rw [hpos]
      exact lookupPosition_zeroOut_other st.positions trader a ha
  · intro st calls
    induction calls generalizing st with
    | nil => intro _ hsum; simpa [runLiquidations] using hsum
    | cons c rest ih =>
      intro hnd hsum
      have hstep : runLiquidations st (c :: rest) =
          runLiquidations
            (match liquidatePosition st c.1 c.2.1 c.2.2 with
             | .ok (s2, _, _) => s2
             | .error _ => st) rest := rfl
      rw [hstep]
      cases hc : liquidatePosition st c.1 c.2.1 c.2.2 with
      | error e => simp only [hc]; exact ih st hnd hsum
      | ok r =>
        obtain ⟨s2, rw2, pnl2⟩ := r
        obtain ⟨hsz, hpos, hoi, _⟩ := liquidatePosition_ok hc
        simp only [hc]
        apply ih
        · rw [hpos, zeroOut_keys]
          exact hnd
        · rw [hpos, sumSizes_zeroOut st.positions c.2.1 hnd, hsum, hoi]

/-- Witness for claim C6: one successful liquidation of trader 7 by
liquidator 5 on `liqState` preserves the signed-sum invariant. -/
theorem claim_C6_open_interest_invariant_witness :
    sumSizes (runLiquidations liqState [(5, 7, 10000000000)]).positions =
      (runLiquidations liqState [(5, 7, 10000000000)]).totalOpenInterest := by
  exact claim_C6_open_interest_invariant.2 liqState [(5, 7, 10000000000)]
    (by decide) (by decide)

/-- Claim C10 (confirmed).  `liquidatePosition` never decreases either
directional open-interest counter: liquidating a short adds its absolute
size to `totalLongOpenInterest`, liquidating a long adds it to
`totalShortOpenInterest`, the opposite counter staying unchanged. -/
theorem claim_C10_liquidation_oi_monotone :
    ∀ st caller trader markPrice st2 reward pnl,
      liquidatePosition st caller trader markPrice = .ok (st2, reward, pnl) →
      st.totalLongOpenInterest ≤ st2.totalLongOpenInterest ∧
      st.totalShortOpenInterest ≤ st2.totalShortOpenInterest ∧
      ((lookupPosition st.positions trader).size < 0 →
         st2.totalLongOpenInterest =
           st.totalLongOpenInterest + ((lookupPosition st.positions trader).size.natAbs : Int) ∧
         st2.totalShortOpenInterest = st.totalShortOpenInterest) ∧
      (0 < (lookupPosition st.positions trader).size →
         st2.totalShortOpenInterest =
           st.totalShortOpenInterest + ((lookupPosition st.positions trader).size.natAbs : Int) ∧
         st2.totalLongOpenInterest = st.totalLongOpenInterest) := by
  intro st caller trader markPrice st2 reward pnl h
  obtain ⟨hsz, _, _, hlong, hshort, _⟩ := liquidatePosition_ok h
  rcases lt_trichotomy (lookupPosition st.positions trader).size 0 with hneg | hzero | hpos
  · have hd : 0 < -(lookupPosition st.positions trader).size := by omega
    obtain ⟨h1, h2⟩ := hlong hd
    refine ⟨by omega, by omega, fun _ => ⟨?_, h2⟩, fun habs => absurd habs (by omega)⟩
    rw [h1]
    congr 1
    omega
  · exact absurd hzero hsz
  · have hd : ¬0 < -(lookupPosition st.positions trader).size := by omega
    obtain ⟨h1, h2⟩ := hshort hd
    refine ⟨by omega, by omega, fun habs => absurd habs (by omega), fun _ => ⟨?_, h2⟩⟩
    rw [h1]
    congr 1
    omega

/-- Witness for claim C10 at the concrete liquidation of the long position
of `liqState`. -/
theorem claim_C10_liquidation_oi_monotone_witness :
    liqState.totalLongOpenInterest ≤
      ((runLiquidations liqState [(5, 7, 10000000000)])).totalLongOpenInterest ∧
    liqState.totalShortOpenInterest ≤
      ((runLiquidations liqState [(5, 7, 10000000000)])).totalShortOpenInterest := by
  have h := claim_C10_liquidation_oi_monotone liqState 5 7 10000000000
    (runLiquidations liqState [(5, 7, 10000000000)]) 0 0 (by decide)
  exact ⟨h.1, h.2.1⟩

/-- Every successful `updateFundingRate` records its block time. -/
theorem updateFundingRate_ok_last {st : RiskState} {t : Nat} {st2 : RiskState}
    (h : updateFundingRate st t = .ok st2) : st2.lastFundingUpdate = t := by
  unfold updateFundingRate at h
  split_ifs at h with hts
  split at h
  next heq => simp at h
  next skew heq =>
    split at h
    next heq2 => simp at h
    next totalOI heq2 =>
      split_ifs at h with h0
      · simp only [Except.ok.injEq] at h
        subst h
        rfl
      · split at h
        next heq3 => simp at h
        next skewScaled heq3 =>
          split at h
          next heq4 => simp at h
          next skewQuot heq4 =>
            split at h
            next heq5 => simp at h
            next absQuot heq5 =>
              simp only [Except.ok.injEq] at h
              subst h
              rfl

/-- Claim C9 (confirmed).  `updateFundingRate` is rate-limited to one call
per hour and fails with `TooSoon` inside the interval (in particular a
second call within an hour of a successful one); with zero total open
interest it resets the rate to the default 10 bps; otherwise it derives the
rate from `|skew| / totalOI`, caps it at `MAX_FUNDING_RATE` (1%/hour), and
forwards the stored rate to the CoreWriter. -/
theorem claim_C9_funding_rate :
    (∀ st t, t < st.lastFundingUpdate + 3600 →
       updateFundingRate st t = .error .TooSoon) ∧
    (∀ st t st2 t2, updateFundingRate st t = .ok st2 → t2 < t + 3600 →
       updateFundingRate st2 t2 = .error .TooSoon) ∧
    (∀ st t, st.lastFundingUpdate + 3600 ≤ t →
       st.totalLongOpenInterest + st.totalShortOpenInterest = 0 →
       inI256 (st.totalLongOpenInterest - st.totalShortOpenInterest) = true →
       updateFundingRate st t =
         .ok { st with marketConfig := { st.marketConfig with fundingRate := 10 }
                       lastFundingUpdate := t
                       writerFundingRate := some 10 }) ∧
    (∀ st t st2, updateFundingRate st t = .ok st2 →
       st.totalLongOpenInterest + st.totalShortOpenInterest ≠ 0 →
       st2.marketConfig.fundingRate =
         min ((Int.tdiv
                ((st.totalLongOpenInterest - st.totalShortOpenInterest) * (BASIS_POINTS : Int))
                (st.totalLongOpenInterest + st.totalShortOpenInterest)).natAbs / 100)
           MAX_FUNDING_RATE ∧
       st2.marketConfig.fundingRate ≤ MAX_FUNDING_RATE ∧
       st2.writerFundingRate = some st2.marketConfig.fundingRate ∧
       st2.lastFundingUpdate = t) := by
  refine ⟨?_, ?_, ?_, ?_⟩
  · intro st t hlt
    unfold updateFundingRate
    rw [if_pos hlt]
  · intro st t st2 t2 h hlt
    have hl := updateFundingRate_ok_last h
    unfold updateFundingRate
    rw [if_pos (by omega)]
  · intro st t hts h0 hin
    unfold updateFundingRate
    rw [if_neg (by omega)]
    split
    next heq =>
      unfold chk256 at heq
      rw [hin] at heq
      simp at heq
    next skew heq =>
      split
      next heq2 =>
        rw [h0] at heq2
        exact absurd heq2 (by decide)
      next totalOI heq2 =>
        have ht := chk256_some heq2
        rw [if_pos (by omega)]
  · intro st t st2 h hne
    unfold updateFundingRate at h
    split_ifs at h with hts
    split at h
    next heq => simp at h
    next skew heq =>
      have hskew := chk256_some heq
      split at h
      next heq2 => simp at h
      next totalOI heq2 =>
        have ht := chk256_some heq2
        split_ifs at h with h0
        · exact absurd (by omega : st.totalLongOpenInterest + st.totalShortOpenInterest = 0) hne
        · split at h
          next heq3 => simp at h
          next skewScaled heq3 =>
            have hsc := chk256_some heq3
            split at h
            next heq4 => simp at h
            next skewQuot heq4 =>
              have hq := sdiv256_some heq4
              split at h
              next heq5 => simp at h
              next absQuot heq5 =>
                have ha := absInt256_some heq5
                simp only [Except.ok.injEq] at h
                subst h
                subst hskew
                subst ht
                subst hsc
                subst hq
                subst ha
                refine ⟨?_, ?_, rfl, rfl⟩
                · show (if MAX_FUNDING_RATE < _ then MAX_FUNDING_RATE else _) = _
                  rcases le_or_lt
                      ((Int.tdiv
                        ((st.totalLongOpenInterest - st.totalShortOpenInterest) *
                          (BASIS_POINTS : Int))
                        (st.totalLongOpenInterest + st.totalShortOpenInterest)).natAbs / 100)
                      MAX_FUNDING_RATE with hle | hgt
                  · rw [if_neg (by omega), Nat.min_eq_left hle]
                  · rw [if_pos hgt, Nat.min_eq_right (by omega)]
                · show (if MAX_FUNDING_RATE < _ then MAX_FUNDING_RATE else _) ≤ MAX_FUNDING_RATE
                  split <;> omega

/-- Witness for claim C9: on `fundState` (long 30, short 10) a call at time
100 is `TooSoon`; after a successful update at 3600 a second call at 3700
is `TooSoon`; on `initRiskState` (zero open interest) the rate resets to
10; and the updated rate equals the capped skew formula (here 50 bps). -/
theorem claim_C9_funding_rate_witness :
    updateFundingRate fundState 100 = .error .TooSoon ∧
    updateFundingRate
      { fundState with
          marketConfig := { fundState.marketConfig with fundingRate := 50 }
          lastFundingUpdate := 3600
          writerFundingRate := some 50 } 3700 = .error .TooSoon ∧
    updateFundingRate initRiskState 3600 =
      .ok { initRiskState with
              marketConfig := { initRiskState.marketConfig with fundingRate := 10 }
              lastFundingUpdate := 3600
              writerFundingRate := some 10 } ∧
    ({ fundState with
         marketConfig := { fundState.marketConfig with fundingRate := 50 }
         lastFundingUpdate := 3600
         writerFundingRate := some 50 } : RiskState).marketConfig.fundingRate =
      min ((Int.tdiv
             ((fundState.totalLongOpenInterest - fundState.totalShortOpenInterest) *
               (BASIS_POINTS : Int))
             (fundState.totalLongOpenInterest + fundState.totalShortOpenInterest)).natAbs / 100)
        MAX_FUNDING_RATE := by
  refine ⟨claim_C9_funding_rate.1 fundState 100 (by decide),
          claim_C9_funding_rate.2.1 fundState 3600 _ 3700 (by decide) (by decide),
          claim_C9_funding_rate.2.2.1 initRiskState 3600 (by decide) (by decide) (by decide),
          (claim_C9_funding_rate.2.2.2 fundState 3600 _ (by decide) (by decide)).1⟩
